import Mathlib

/-!
Verification of the EMUSNESV0 emulator core (src/EMUSNESV0.py).

The Python source is shallowly embedded as follows:

* `bytearray` becomes `ByteStore`: an explicit `size` together with a total
  function `data : Nat → Nat` giving the byte at each index.  Only indices
  below `size` are ever read by the embedded operations (reads are guarded
  exactly where the Python interpreter would raise `IndexError`).  Python's
  slice assignment `m[start:stop] = new` — which for a `bytearray` replaces
  the range and may change the overall length — becomes `ByteStore.splice`.
* `SimpleSNESCPU` becomes `CpuState`, with the same fields in the same
  order: `memory`, `pc`, `a`, `x`, `y`, `sp`, `status`.  Python integers are
  modelled as `Nat` (none of the quantities involved can go negative).
* `step` is the net effect of one `SimpleSNESCPU.step()` call, with the
  exceptions the Python runtime would raise (`IndexError` on an
  out-of-range `bytearray` read or write, `ValueError` on storing a value
  above 255 into a `bytearray` cell) made explicit: `step` returns the
  optionally-raised error together with the state as mutated up to the
  point of the raise, matching Python's in-place mutation semantics.
* `SNESPPU` becomes `PpuState` and `render_frame`; the produced PIL image
  becomes a row-major list of rows of `(r, g, b)` pixels.
* `CitraLikeEmulator.emulate_single_frame` becomes `emulate_single_frame`.
-/

/-- Model of a Python `bytearray`: its current length and the byte stored at
each index below `size` (indices at or above `size` are never consulted). -/
structure ByteStore where
  size : Nat
  data : Nat → Nat

/-- `m[i] = v` for a `bytearray`: point update, length unchanged.  (The
in-range and byte-range checks that Python performs are made at the call
site in `step`, where the corresponding exceptions are surfaced.) -/
def ByteStore.set (m : ByteStore) (i v : Nat) : ByteStore :=
  ⟨m.size, fun j => if j = i then v else m.data j⟩

/-- Python slice assignment `m[start:stop] = new` for a `bytearray` with
`start ≤ stop ≤ m.size` (the only shape occurring in the source): the bytes
in `[start, stop)` are replaced by `new`, the tail shifts, and the length
becomes `m.size - (stop - start) + new.length`.  This is how the source's
`memory[0x8000:0x8003] = [...]` (8 bytes into a 3-byte slice) and
`memory[0x8000:0xC000] = rom` behave in Python. -/
def ByteStore.splice (m : ByteStore) (start stop : Nat) (new : List Nat) : ByteStore :=
  ⟨m.size - (stop - start) + new.length,
   fun j =>
     if j < start then m.data j
     else if j < start + new.length then new.getD (j - start) 0
     else m.data (j + (stop - start) - new.length)⟩

/-- Length-preserving program install: slice assignment whose slice width
equals the length of the installed bytes (`m[addr : addr + prog.length] = prog`).
This is the "install these bytes at `addr`" operation the test programs use. -/
def ByteStore.install (m : ByteStore) (addr : Nat) (prog : List Nat) : ByteStore :=
  m.splice addr (addr + prog.length) prog

/-- A fresh 1 MiB `bytearray(0x100000)`: all zeroes. -/
def freshMemory : ByteStore := ⟨0x100000, fun _ => 0⟩

/-- The register file and memory of `SimpleSNESCPU`, fields in source order. -/
structure CpuState where
  memory : ByteStore
  pc : Nat
  a : Nat
  x : Nat
  y : Nat
  sp : Nat
  status : Nat

/-- The exceptions the Python runtime can raise inside `step()`:
`IndexError` from an out-of-range `bytearray` index, `ValueError` from
storing a value outside `0..255` into a `bytearray` cell. -/
inductive PyError where
  | indexError : PyError
  | valueError : PyError
deriving DecidableEq

/-- `SimpleSNESCPU.__init__`: 1 MiB zeroed memory, `pc = 0x8000`, `a = x = y = 0`,
`sp = 0x0100`, `status = 0`, then the test program is written with
`memory[0x8000:0x8003] = [0xA9, 0x05, 0x8D, 0x00, 0x02, 0x4C, 0x00, 0x80]`
(a 3-byte slice assigned 8 bytes — a splice). -/
def initCpu : CpuState :=
  { memory := freshMemory.splice 0x8000 0x8003 [0xA9, 0x05, 0x8D, 0x00, 0x02, 0x4C, 0x00, 0x80]
    pc := 0x8000
    a := 0
    x := 0
    y := 0
    sp := 0x0100
    status := 0 }

/-- `CitraLikeEmulator.load_rom` after a file was chosen: the first up-to-0x20000
bytes of the file (here the list `rom`) are spliced over `memory[0x8000:0xC000]`. -/
def load_rom (s : CpuState) (rom : List Nat) : CpuState :=
  { s with memory := s.memory.splice 0x8000 0xC000 rom }

/-- One `SimpleSNESCPU.step()` call, as its net effect on the state, together
with the exception it raises, if any.  Branch by branch against the source:

* fetch: `opcode = memory[pc]` (guarded: `IndexError` if `pc` is out of
  range, with no mutation, since the raise happens before `self.pc = next_pc + 1`);
  the subsequent `self.pc = next_pc + 1` is folded into each branch below.
* `0xA9` (LDA immediate): `a = memory[pc+1]`; final `pc = pc + 2`.  If the
  operand read is out of range the error state has only `pc = pc + 1` applied.
* `0x8D`/`0x4C`: `address = (memory[pc+1] << 8) | memory[pc+2]` (big-endian;
  out-of-range operand reads raise with only `pc = pc + 1` applied);
  - `0x8D` (STA absolute): `memory[address] = a` (`IndexError` when
    `address` is out of range, `ValueError` when `a > 255`, either way
    before `pc += 2` runs); on success final `pc = pc + 3`.
  - `0x4C` (JMP absolute): `pc = address` and then the shared `pc += 2`
    still executes, so the final `pc` is `address + 2`.
* any other opcode: no dispatch arm matches; only the fetch advance
  `pc = pc + 1` happens. -/
def step (s : CpuState) : Option PyError × CpuState :=
  if s.pc < s.memory.size then
    let opcode := s.memory.data s.pc
    if opcode = 0xA9 then
      if s.pc + 1 < s.memory.size then
        (none, { s with a := s.memory.data (s.pc + 1), pc := s.pc + 2 })
      else (some PyError.indexError, { s with pc := s.pc + 1 })
    else if opcode = 0x8D ∨ opcode = 0x4C then
      if s.pc + 2 < s.memory.size then
        let address := (s.memory.data (s.pc + 1)) <<< 8 ||| s.memory.data (s.pc + 2)
        if opcode = 0x8D then
          if address < s.memory.size then
            if s.a ≤ 255 then
              (none, { s with memory := s.memory.set address s.a, pc := s.pc + 3 })
            else (some PyError.valueError, { s with pc := s.pc + 1 })
          else (some PyError.indexError, { s with pc := s.pc + 1 })
        else (none, { s with pc := address + 2 })
      else (some PyError.indexError, { s with pc := s.pc + 1 })
    else (none, { s with pc := s.pc + 1 })
  else (some PyError.indexError, s)

/-- `n` successive `cpu.step()` calls (as in the per-frame loop or a test
harness); an exception aborts the remaining calls and propagates, leaving
the state as mutated so far. -/
def stepN : Nat → CpuState → Option PyError × CpuState
  | 0, s => (none, s)
  | n + 1, s =>
    match step s with
    | (none, s') => stepN n s'
    | (some e, s') => (some e, s')

/-- A rendered PIL image, as its observable pixel grid: a list of `height`
rows, each a list of `width` `(r, g, b)` pixels. -/
abbrev EmuImage : Type := List (List (Nat × Nat × Nat))

/-- `SNESPPU` state: dimensions (set to 256 × 224 in `__init__`), the
framebuffer list, and the last rendered image (`self.ppu_image`, `None`
until the first render).  The Tk canvas is an external collaborator and is
not modelled. -/
structure PpuState where
  width : Nat
  height : Nat
  framebuffer : List Nat
  ppu_image : Option EmuImage
deriving DecidableEq

/-- `SNESPPU.__init__`: 256 × 224, framebuffer of `width * height` zeroes,
no image rendered yet. -/
def initPpu : PpuState :=
  { width := 256, height := 224, framebuffer := List.replicate (256 * 224) 0, ppu_image := none }

/-- The pixel grid built by the nested loops of `render_frame`: for each
`y < height` and `x < width`, `color = framebuffer[y * width + x]` and the
pixel at `(x, y)` is `(color, color, color)`.  (`getD _ 0` is only reached
at indices below `fb.length` at every call site — `render_frame` guards
exactly the range the loops read.) -/
def renderImage (width height : Nat) (fb : List Nat) : EmuImage :=
  (List.range height).map fun y =>
    (List.range width).map fun x =>
      let color := fb.getD (y * width + x) 0
      (color, color, color)

/-- `SNESPPU.render_frame()`: builds the image from the framebuffer, stores
it in `self.ppu_image`, and hands it to the canvas (the handed-over image is
the second component).  If the framebuffer is shorter than the
`width * height` cells the loops read, Python raises `IndexError` mid-loop
before `self.ppu_image` is assigned: modelled as `none`, state unchanged. -/
def render_frame (p : PpuState) : Option (PpuState × EmuImage) :=
  if p.width * p.height ≤ p.framebuffer.length then
    let img := renderImage p.width p.height p.framebuffer
    some ({ p with ppu_image := some img }, img)
  else none

/-- The synthetic framebuffer written by `emulate_single_frame`:
`[i % 256 for i in range(width * height)]`. -/
def syntheticFrame (width height : Nat) : List Nat :=
  (List.range (width * height)).map (· % 256)

/-- `CitraLikeEmulator.emulate_single_frame`: 100 `cpu.step()` calls, then
`ppu.framebuffer = [i % 256 for i in range(w*h)]`, then `ppu.render_frame()`.
An exception from a `step()` aborts the frame before the framebuffer
refresh; an exception from the render leaves the refreshed framebuffer but
no image.  Result: (raised error, cpu, ppu, image handed to the canvas). -/
def emulate_single_frame (cpu : CpuState) (ppu : PpuState) :
    Option PyError × CpuState × PpuState × Option EmuImage :=
  match stepN 100 cpu with
  | (some e, cpu') => (some e, cpu', ppu, none)
  | (none, cpu') =>
    let ppu1 := { ppu with framebuffer := syntheticFrame ppu.width ppu.height }
    match render_frame ppu1 with
    | some (ppu2, img) => (none, cpu', ppu2, some img)
    | none => (some PyError.indexError, cpu', ppu1, none)

/-- The absolute address decoded for the `0x8D`/`0x4C` arm:
`(memory[pc+1] << 8) | memory[pc+2]`, big-endian. -/
def absAddress (s : CpuState) : Nat :=
  (s.memory.data (s.pc + 1)) <<< 8 ||| s.memory.data (s.pc + 2)

/-! ### Concrete test states -/

/-- A CPU state whose memory holds exactly the bytes of `mem` (used for
small concrete instantiations); registers as after `__init__` except `pc`. -/
def mkCpu (mem : List Nat) (pc : Nat) : CpuState :=
  { memory := ⟨mem.length, fun i => mem.getD i 0⟩
    pc := pc
    a := 0
    x := 0
    y := 0
    sp := 0x0100
    status := 0 }

/-- Fresh 1 MiB memory with `[0x4C, 0x80, 0x00]` installed at 0x8000
(jump with big-endian target 0x8000), `pc = 0x8000`. -/
def jmpCpu : CpuState :=
  { memory := freshMemory.install 0x8000 [0x4C, 0x80, 0x00]
    pc := 0x8000
    a := 0
    x := 0
    y := 0
    sp := 0x0100
    status := 0 }

/-- Fresh 1 MiB memory with `[0xA9, 0x05, 0x8D, 0x00, 0x02]` installed at
0x8000 (the spec's STA round-trip program), `pc = 0x8000`. -/
def staCpu : CpuState :=
  { memory := freshMemory.install 0x8000 [0xA9, 0x05, 0x8D, 0x00, 0x02]
    pc := 0x8000
    a := 0
    x := 0
    y := 0
    sp := 0x0100
    status := 0 }

/-- Fresh 1 MiB memory with `[0xFF]` installed at 0x8000, `pc = 0x8000`. -/
def illegalCpu : CpuState :=
  { memory := freshMemory.install 0x8000 [0xFF]
    pc := 0x8000
    a := 0
    x := 0
    y := 0
    sp := 0x0100
    status := 0 }

/-- An all-zero 128-byte CPU state: 100 steps execute 100 unknown opcodes,
each advancing `pc` by 1, with no exception. -/
def frameCpu : CpuState := mkCpu (List.replicate 128 0) 0

/-- A tiny concrete PPU: 2 × 2 with framebuffer `[0, 1, 2, 3]`. -/
def p2x2 : PpuState := { width := 2, height := 2, framebuffer := [0, 1, 2, 3], ppu_image := none }

/-- The image `render_frame` produces for `p2x2`. -/
def img2x2 : EmuImage := [[(0, 0, 0), (1, 1, 1)], [(2, 2, 2), (3, 3, 3)]]

/-- Two CPU-and-bus states with identical observable memory contents (same
length, same byte at every valid address) and identical register values. -/
def StatesAgree (s1 s2 : CpuState) : Prop :=
  s1.memory.size = s2.memory.size ∧
  (∀ i, i < s1.memory.size → s1.memory.data i = s2.memory.data i) ∧
  s1.pc = s2.pc ∧ s1.a = s2.a ∧ s1.x = s2.x ∧ s1.y = s2.y ∧
  s1.sp = s2.sp ∧ s1.status = s2.status

/-! ### Branch lemmas for `step`

One lemma per control path of `SimpleSNESCPU.step()`, used by the claim
theorems below. -/

/-- Fetch with `pc` out of range: `IndexError` before any mutation. -/
theorem step_fetch_oob (s : CpuState) (h : ¬ s.pc < s.memory.size) :
    step s = (some PyError.indexError, s) := by
  simp [step, h]

/-- LDA immediate, operand in range. -/
theorem step_lda (s : CpuState) (hb : s.pc + 1 < s.memory.size)
    (hop : s.memory.data s.pc = 0xA9) :
    step s = (none, { s with a := s.memory.data (s.pc + 1), pc := s.pc + 2 }) := by
  have h0 : s.pc < s.memory.size := by omega
  simp [step, h0, hop, hb]

/-- STA absolute, all checks passing: memory write at the decoded address,
`pc` advances past opcode and both operand bytes. -/
theorem step_sta (s : CpuState) (hb : s.pc + 2 < s.memory.size)
    (hop : s.memory.data s.pc = 0x8D)
    (haddr : absAddress s < s.memory.size) (ha : s.a ≤ 255) :
    step s = (none, { s with memory := s.memory.set (absAddress s) s.a, pc := s.pc + 3 }) := by
  have h0 : s.pc < s.memory.size := by omega
  have haddr' : (s.memory.data (s.pc + 1)) <<< 8 ||| s.memory.data (s.pc + 2) < s.memory.size :=
    haddr
  simp [step, absAddress, h0, hop, hb, haddr', ha]

/-- JMP absolute: `pc = address` and then the shared `pc += 2` still runs,
so the final `pc` is the decoded address plus 2. -/
theorem step_jmp (s : CpuState) (hb : s.pc + 2 < s.memory.size)
    (hop : s.memory.data s.pc = 0x4C) :
    step s = (none, { s with pc := absAddress s + 2 }) := by
  have h0 : s.pc < s.memory.size := by omega
  simp [step, absAddress, h0, hop, hb]

/-- LDA immediate with the operand byte out of range: `IndexError` is
raised after the fetch advance but before anything else. -/
theorem step_lda_oob (s : CpuState) (h0 : s.pc < s.memory.size)
    (hb : ¬ s.pc + 1 < s.memory.size) (hop : s.memory.data s.pc = 0xA9) :
    step s = (some PyError.indexError, { s with pc := s.pc + 1 }) := by
  simp [step, h0, hop, hb]

/-- STA/JMP with an operand byte out of range: `IndexError` after only the
fetch advance. -/
theorem step_abs_oob (s : CpuState) (h0 : s.pc < s.memory.size)
    (hb : ¬ s.pc + 2 < s.memory.size)
    (hop : s.memory.data s.pc = 0x8D ∨ s.memory.data s.pc = 0x4C) :
    step s = (some PyError.indexError, { s with pc := s.pc + 1 }) := by
  have hA : s.memory.data s.pc ≠ 0xA9 := by rcases hop with h | h <;> simp [h]
  simp [step, h0, hA, hop, hb]

/-- STA with the decoded address out of range: the write raises
`IndexError` before the trailing `pc += 2` runs. -/
theorem step_sta_addr_oob (s : CpuState) (hb : s.pc + 2 < s.memory.size)
    (hop : s.memory.data s.pc = 0x8D) (haddr : ¬ absAddress s < s.memory.size) :
    step s = (some PyError.indexError, { s with pc := s.pc + 1 }) := by
  have h0 : s.pc < s.memory.size := by omega
  have haddr' : ¬ (s.memory.data (s.pc + 1)) <<< 8 ||| s.memory.data (s.pc + 2)
      < s.memory.size := haddr
  simp [step, h0, hop, hb, haddr']

/-- STA with `a` outside the byte range: the `bytearray` write raises
`ValueError` before the trailing `pc += 2` runs. -/
theorem step_sta_val_oob (s : CpuState) (hb : s.pc + 2 < s.memory.size)
    (hop : s.memory.data s.pc = 0x8D) (haddr : absAddress s < s.memory.size)
    (ha : ¬ s.a ≤ 255) :
    step s = (some PyError.valueError, { s with pc := s.pc + 1 }) := by
  have h0 : s.pc < s.memory.size := by omega
  have haddr' : (s.memory.data (s.pc + 1)) <<< 8 ||| s.memory.data (s.pc + 2)
      < s.memory.size := haddr
  simp [step, h0, hop, hb, haddr', ha]

/-- Unrecognized opcode: no dispatch arm matches, so only the fetch advance
`pc = pc + 1` happens — no error, no other mutation. -/
theorem step_unknown (s : CpuState) (h0 : s.pc < s.memory.size)
    (hop : s.memory.data s.pc ≠ 0xA9 ∧ s.memory.data s.pc ≠ 0x8D ∧
      s.memory.data s.pc ≠ 0x4C) :
    step s = (none, { s with pc := s.pc + 1 }) := by
  obtain ⟨h1, h2, h3⟩ := hop
  simp [step, h0, h1, h2, h3]

/-! ### Claim theorems -/

/-- Claim C1 (code bug): after installing `[0x4C, 0x80, 0x00]` at 0x8000
with `pc = 0x8000`, one `step()` raises nothing but leaves `pc = 0x8002`,
not the decoded jump target 0x8000: the source executes `self.pc = address`
and then the arm-shared `self.pc += 2` still runs, so a jump never lands on
its target. -/
theorem c1_jmp_overshoots_target :
    (step jmpCpu).1 = none ∧ (step jmpCpu).2.pc = 0x8002 ∧ (step jmpCpu).2.pc ≠ 0x8000 := by
  decide

/-- Claim C2 (counterexample): after installing
`[0xA9, 0x05, 0x8D, 0x00, 0x02]` at 0x8000 with `pc = 0x8000` and running
two `step()` calls, address 0x0200 still reads 0, not 5: the operand bytes
`0x00, 0x02` decode big-endian to address 0x0002. -/
theorem c2_sta_misses_0x0200 :
    (stepN 2 staCpu).1 = none ∧ (stepN 2 staCpu).2.memory.data 0x0200 = 0 ∧
      ¬ (stepN 2 staCpu).2.memory.data 0x0200 = 5 := by
  decide

/-- Claim C2 (amended): with the source's big-endian operand decoding, the
same two steps leave the accumulator value 5 at bus address 0x0002 (and
`pc = 0x8005`). -/
theorem c2_sta_writes_0x0002 :
    (stepN 2 staCpu).1 = none ∧ (stepN 2 staCpu).2.memory.data 0x0002 = 5 ∧
      (stepN 2 staCpu).2.pc = 0x8005 := by
  decide

/-- Claim C3 (counterexample): with `[0xFF]` installed at `pc = 0x8000`,
`step()` raises no error at all (the source has no illegal-opcode guard and
no `IllegalOpcodeError` type), and `pc` is mutated to 0x8001 — contradicting
both the claimed failure and the claimed absence of mutation. -/
theorem c3_illegal_opcode_is_silent :
    (step illegalCpu).1 = none ∧ (step illegalCpu).2.pc = 0x8001 := by
  decide

/-- Claim C3 (amended): for every state whose byte at `pc` is none of the
three implemented opcodes, `step()` raises nothing and its entire effect is
`pc := pc + 1`; registers `a, x, y, sp, status` and memory are untouched. -/
theorem c3_unknown_opcode_silently_skips (s : CpuState) (h0 : s.pc < s.memory.size)
    (h1 : s.memory.data s.pc ≠ 0xA9) (h2 : s.memory.data s.pc ≠ 0x8D)
    (h3 : s.memory.data s.pc ≠ 0x4C) :
    step s = (none, { s with pc := s.pc + 1 }) :=
  step_unknown s h0 ⟨h1, h2, h3⟩

/-- Witness for `c3_unknown_opcode_silently_skips` at a concrete state:
memory `[0xFE]`, `pc = 0`. -/
theorem c3_unknown_opcode_silently_skips_witness :
    (0 < (mkCpu [0xFE] 0).memory.size ∧
      (mkCpu [0xFE] 0).memory.data 0 ≠ 0xA9 ∧
      (mkCpu [0xFE] 0).memory.data 0 ≠ 0x8D ∧
      (mkCpu [0xFE] 0).memory.data 0 ≠ 0x4C) ∧
    step (mkCpu [0xFE] 0) = (none, { mkCpu [0xFE] 0 with pc := 1 }) :=
  ⟨⟨by decide, by decide, by decide, by decide⟩,
    c3_unknown_opcode_silently_skips (mkCpu [0xFE] 0) (by decide)
      (by decide) (by decide) (by decide)⟩

/-- Claim C4 (code bug): the memory is not a fixed 1 MiB store.  The
constructor's `memory[0x8000:0x8003] = [8 test-program bytes]` is a Python
splice that grows the bytearray to 0x100005 bytes, and `load_rom` with a
0x20000-byte image (`memory[0x8000:0xC000] = rom`) grows it further to
0x11C005 bytes. -/
theorem c4_memory_grows :
    initCpu.memory.size = 0x100005 ∧ initCpu.memory.size ≠ 0x100000 ∧
      ∀ rom : List Nat, rom.length = 0x20000 →
        (load_rom initCpu rom).memory.size = 0x11C005 := by
  refine ⟨by decide, by decide, fun rom hrom => ?_⟩
  have hinit : initCpu.memory.size = 0x100005 := by decide
  show (initCpu.memory.splice 0x8000 0xC000 rom).size = 0x11C005
  simp only [ByteStore.splice]
  rw [hinit, hrom]

/-- Witness for `c4_memory_grows`: a 0x20000-byte all-zero ROM image. -/
theorem c4_memory_grows_witness :
    (List.replicate 0x20000 0).length = 0x20000 ∧
      (load_rom initCpu (List.replicate 0x20000 0)).memory.size = 0x11C005 :=
  ⟨List.length_replicate 0x20000 0,
    c4_memory_grows.2.2 (List.replicate 0x20000 0) (List.length_replicate 0x20000 0)⟩

/-- Claim C5: if the byte at `pc` is 0xA9 followed by operand `v`, one
`step()` loads `v` into `a`, advances `pc` by exactly 2, and changes nothing
else. -/
theorem c5_lda_immediate (s : CpuState) (v : Nat) (hb : s.pc + 1 < s.memory.size)
    (hop : s.memory.data s.pc = 0xA9) (hv : s.memory.data (s.pc + 1) = v) :
    step s = (none, { s with a := v, pc := s.pc + 2 }) := by
  rw [step_lda s hb hop, hv]

/-- Witness for `c5_lda_immediate`: memory `[0xA9, 0x07]`, `pc = 0`. -/
theorem c5_lda_immediate_witness :
    (0 + 1 < (mkCpu [0xA9, 0x07] 0).memory.size ∧
      (mkCpu [0xA9, 0x07] 0).memory.data 0 = 0xA9 ∧
      (mkCpu [0xA9, 0x07] 0).memory.data (0 + 1) = 7) ∧
    step (mkCpu [0xA9, 0x07] 0) = (none, { mkCpu [0xA9, 0x07] 0 with a := 7, pc := 0 + 2 }) :=
  ⟨⟨by decide, by decide, by decide⟩,
    c5_lda_immediate (mkCpu [0xA9, 0x07] 0) 7 (by decide) (by decide) (by decide)⟩

/-- Claim C9: no branch of `step()` writes `x`, `y`, `sp`, or `status` —
they are preserved by every step, on every opcode and also on every error
path. -/
theorem c9_step_preserves_xysp_status (s : CpuState) :
    (step s).2.x = s.x ∧ (step s).2.y = s.y ∧ (step s).2.sp = s.sp ∧
      (step s).2.status = s.status := by
  unfold step
  dsimp only
  repeat' split
  all_goals exact ⟨rfl, rfl, rfl, rfl⟩

/-- Claim C10: for every state whose byte at `pc` is not 0xA9, 0x8D, or
0x4C, `step()` raises no error, advances `pc` by exactly 1, and leaves
`a, x, y, sp, status` and all memory unchanged. -/
theorem c10_unknown_opcode_advances_one (s : CpuState) (h0 : s.pc < s.memory.size)
    (h1 : s.memory.data s.pc ≠ 0xA9) (h2 : s.memory.data s.pc ≠ 0x8D)
    (h3 : s.memory.data s.pc ≠ 0x4C) :
    (step s).1 = none ∧ (step s).2.pc = s.pc + 1 ∧ (step s).2.a = s.a ∧
      (step s).2.x = s.x ∧ (step s).2.y = s.y ∧ (step s).2.sp = s.sp ∧
      (step s).2.status = s.status ∧ (step s).2.memory = s.memory := by
  rw [step_unknown s h0 ⟨h1, h2, h3⟩]
  simp

/-- Witness for `c10_unknown_opcode_advances_one`: memory `[0x00]`, `pc = 0`. -/
theorem c10_unknown_opcode_advances_one_witness :
    (0 < (mkCpu [0x00] 0).memory.size ∧
      (mkCpu [0x00] 0).memory.data 0 ≠ 0xA9 ∧
      (mkCpu [0x00] 0).memory.data 0 ≠ 0x8D ∧
      (mkCpu [0x00] 0).memory.data 0 ≠ 0x4C) ∧
    ((step (mkCpu [0x00] 0)).1 = none ∧ (step (mkCpu [0x00] 0)).2.pc = 0 + 1 ∧
      (step (mkCpu [0x00] 0)).2.a = (mkCpu [0x00] 0).a ∧
      (step (mkCpu [0x00] 0)).2.x = (mkCpu [0x00] 0).x ∧
      (step (mkCpu [0x00] 0)).2.y = (mkCpu [0x00] 0).y ∧
      (step (mkCpu [0x00] 0)).2.sp = (mkCpu [0x00] 0).sp ∧
      (step (mkCpu [0x00] 0)).2.status = (mkCpu [0x00] 0).status ∧
      (step (mkCpu [0x00] 0)).2.memory = (mkCpu [0x00] 0).memory) :=
  ⟨⟨by decide, by decide, by decide, by decide⟩,
    c10_unknown_opcode_advances_one (mkCpu [0x00] 0) (by decide)
      (by decide) (by decide) (by decide)⟩

/-! ### Determinism -/

/-- One `step()` from states with identical observable contents raises the
same error (or none) and yields states with identical observable contents:
every branch of `step` reads memory only at valid addresses and writes the
same cells with the same values in both runs. -/
theorem step_congr (s1 s2 : CpuState) (h : StatesAgree s1 s2) :
    (step s1).1 = (step s2).1 ∧ StatesAgree (step s1).2 (step s2).2 := by
  obtain ⟨hsz, hdata, hpc, ha, hx, hy, hsp, hst⟩ := h
  by_cases h0 : s1.pc < s1.memory.size
  · have h0' : s2.pc < s2.memory.size := by omega
    have hop : s2.memory.data s2.pc = s1.memory.data s1.pc := by
      rw [← hpc]; exact (hdata s1.pc h0).symm
    by_cases hA : s1.memory.data s1.pc = 0xA9
    · by_cases hb : s1.pc + 1 < s1.memory.size
      · have hb' : s2.pc + 1 < s2.memory.size := by omega
        rw [step_lda s1 hb hA, step_lda s2 hb' (by rw [hop, hA])]
        refine ⟨rfl, hsz, hdata, ?_, ?_, hx, hy, hsp, hst⟩
        · show s1.pc + 2 = s2.pc + 2; omega
        · show s1.memory.data (s1.pc + 1) = s2.memory.data (s2.pc + 1)
          rw [← hpc]; exact hdata (s1.pc + 1) hb
      · have hb' : ¬ s2.pc + 1 < s2.memory.size := by omega
        rw [step_lda_oob s1 h0 hb hA, step_lda_oob s2 h0' hb' (by rw [hop, hA])]
        exact ⟨rfl, hsz, hdata, by show s1.pc + 1 = s2.pc + 1; omega,
          ha, hx, hy, hsp, hst⟩
    · by_cases hSD : s1.memory.data s1.pc = 0x8D ∨ s1.memory.data s1.pc = 0x4C
      · by_cases hb2 : s1.pc + 2 < s1.memory.size
        · have hb2' : s2.pc + 2 < s2.memory.size := by omega
          have h1b : s1.pc + 1 < s1.memory.size := by omega
          have haddr_eq : absAddress s1 = absAddress s2 := by
            unfold absAddress
            rw [← hpc, hdata (s1.pc + 1) h1b, hdata (s1.pc + 2) hb2]
          rcases hSD with h8D | h4C
          · by_cases hlt : absAddress s1 < s1.memory.size
            · by_cases hva : s1.a ≤ 255
              · have hlt' : absAddress s2 < s2.memory.size := by
                  rw [← haddr_eq]; omega
                have hva' : s2.a ≤ 255 := by omega
                rw [step_sta s1 hb2 h8D hlt hva,
                  step_sta s2 hb2' (by rw [hop, h8D]) hlt' hva']
                refine ⟨rfl, hsz, ?_, by show s1.pc + 3 = s2.pc + 3; omega,
                  ha, hx, hy, hsp, hst⟩
                show ∀ i, i < s1.memory.size →
                  (s1.memory.set (absAddress s1) s1.a).data i =
                    (s2.memory.set (absAddress s2) s2.a).data i
                intro i hi
                simp only [ByteStore.set]
                rw [haddr_eq, ha]
                by_cases hieq : i = absAddress s2
                · simp [hieq]
                · simp [hieq, hdata i hi]
              · have hlt' : absAddress s2 < s2.memory.size := by
                  rw [← haddr_eq]; omega
                have hva' : ¬ s2.a ≤ 255 := by omega
                rw [step_sta_val_oob s1 hb2 h8D hlt hva,
                  step_sta_val_oob s2 hb2' (by rw [hop, h8D]) hlt' hva']
                exact ⟨rfl, hsz, hdata, by show s1.pc + 1 = s2.pc + 1; omega,
                  ha, hx, hy, hsp, hst⟩
            · have hlt' : ¬ absAddress s2 < s2.memory.size := by
                rw [← haddr_eq]; omega
              rw [step_sta_addr_oob s1 hb2 h8D hlt,
                step_sta_addr_oob s2 hb2' (by rw [hop, h8D]) hlt']
              exact ⟨rfl, hsz, hdata, by show s1.pc + 1 = s2.pc + 1; omega,
                ha, hx, hy, hsp, hst⟩
          · have hj : absAddress s1 + 2 = absAddress s2 + 2 := by rw [haddr_eq]
            rw [step_jmp s1 hb2 h4C, step_jmp s2 hb2' (by rw [hop, h4C])]
            exact ⟨rfl, hsz, hdata, hj, ha, hx, hy, hsp, hst⟩
        · have hb2' : ¬ s2.pc + 2 < s2.memory.size := by omega
          rw [step_abs_oob s1 h0 hb2 hSD,
            step_abs_oob s2 h0' hb2' (by rw [hop]; exact hSD)]
          exact ⟨rfl, hsz, hdata, by show s1.pc + 1 = s2.pc + 1; omega,
            ha, hx, hy, hsp, hst⟩
      · push_neg at hSD
        rw [step_unknown s1 h0 ⟨hA, hSD.1, hSD.2⟩,
          step_unknown s2 h0' ⟨by rw [hop]; exact hA, by rw [hop]; exact hSD.1,
            by rw [hop]; exact hSD.2⟩]
        exact ⟨rfl, hsz, hdata, by show s1.pc + 1 = s2.pc + 1; omega,
          ha, hx, hy, hsp, hst⟩
  · have h0' : ¬ s2.pc < s2.memory.size := by omega
    rw [step_fetch_oob s1 h0, step_fetch_oob s2 h0']
    exact ⟨rfl, hsz, hdata, hpc, ha, hx, hy, hsp, hst⟩

/-- Claim C6: `step()` is deterministic — from any two states with
identical memory contents and identical registers, `n` `step()` calls
produce the same error behavior and states with identical memory contents
and identical registers. -/
theorem c6_step_deterministic (s1 s2 : CpuState) (n : Nat) (h : StatesAgree s1 s2) :
    (stepN n s1).1 = (stepN n s2).1 ∧ StatesAgree (stepN n s1).2 (stepN n s2).2 := by
  induction n generalizing s1 s2 with
  | zero => exact ⟨rfl, h⟩
  | succ n ih =>
    obtain ⟨herr, hag⟩ := step_congr s1 s2 h
    rcases he1 : step s1 with ⟨e1, t1⟩
    rcases he2 : step s2 with ⟨e2, t2⟩
    rw [he1, he2] at herr hag
    simp only [stepN]
    rw [he1, he2]
    subst herr
    cases e1 with
    | none => exact ih t1 t2 hag
    | some e => exact ⟨rfl, hag⟩

/-- Witness for `c6_step_deterministic`: two states with the same two
meaningful bytes `[0xA9, 0x05]` but different junk in the `data` function
beyond `size`, run for 2 steps. -/
theorem c6_step_deterministic_witness :
    StatesAgree (mkCpu [0xA9, 0x05] 0)
      ⟨⟨2, fun i => if i = 0 then 0xA9 else if i = 1 then 5 else 77⟩, 0, 0, 0, 0, 0x0100, 0⟩ ∧
    ((stepN 2 (mkCpu [0xA9, 0x05] 0)).1 =
      (stepN 2 ⟨⟨2, fun i => if i = 0 then 0xA9 else if i = 1 then 5 else 77⟩,
        0, 0, 0, 0, 0x0100, 0⟩).1 ∧
     StatesAgree (stepN 2 (mkCpu [0xA9, 0x05] 0)).2
      (stepN 2 ⟨⟨2, fun i => if i = 0 then 0xA9 else if i = 1 then 5 else 77⟩,
        0, 0, 0, 0, 0x0100, 0⟩).2) :=
  ⟨⟨rfl, by decide, rfl, rfl, rfl, rfl, rfl, rfl⟩,
    c6_step_deterministic _ _ 2 ⟨rfl, by decide, rfl, rfl, rfl, rfl, rfl, rfl⟩⟩

/-! ### Frame and render -/

/-- Claim C7: whenever the 100 `step()` calls complete without an
exception, one frame tick is exactly: run `stepN 100`, then overwrite the
framebuffer with the synthetic pattern, then render the freshly written
framebuffer — the image handed out is the render of the new buffer, and
the stored `ppu_image` is that same image. -/
theorem c7_frame_runs_100_steps_then_renders (cpu cpu' : CpuState) (ppu : PpuState)
    (h : stepN 100 cpu = (none, cpu')) :
    emulate_single_frame cpu ppu =
      (none, cpu',
       { ppu with
          framebuffer := syntheticFrame ppu.width ppu.height
          ppu_image :=
            some (renderImage ppu.width ppu.height (syntheticFrame ppu.width ppu.height)) },
       some (renderImage ppu.width ppu.height (syntheticFrame ppu.width ppu.height))) := by
  unfold emulate_single_frame
  rw [h]
  have hlen : (syntheticFrame ppu.width ppu.height).length = ppu.width * ppu.height := by
    simp [syntheticFrame]
  simp [render_frame, hlen]

set_option maxRecDepth 4000 in
/-- Witness for `c7_frame_runs_100_steps_then_renders` at `frameCpu` and
the freshly constructed PPU. -/
theorem c7_frame_runs_100_steps_then_renders_witness :
    stepN 100 frameCpu = (none, (stepN 100 frameCpu).2) ∧
    emulate_single_frame frameCpu initPpu =
      (none, (stepN 100 frameCpu).2,
       { initPpu with
          framebuffer := syntheticFrame initPpu.width initPpu.height
          ppu_image :=
            some (renderImage initPpu.width initPpu.height
              (syntheticFrame initPpu.width initPpu.height)) },
       some (renderImage initPpu.width initPpu.height
        (syntheticFrame initPpu.width initPpu.height))) :=
  ⟨rfl, c7_frame_runs_100_steps_then_renders frameCpu ((stepN 100 frameCpu).2) initPpu rfl⟩

/-- Claim C8: a successful render leaves the framebuffer untouched, a
second render with no intervening framebuffer update produces the
bit-identical image (and only re-stores it), the image has exactly `height`
rows of exactly `width` pixels, and the pixel at row-major position
`(i % width, i / width)` replicates the stored intensity `v` at index `i`
into `(v, v, v)`. -/
theorem c8_render_pure_grayscale (p p' : PpuState) (img : EmuImage)
    (h : render_frame p = some (p', img)) :
    p'.framebuffer = p.framebuffer ∧
    render_frame p' = some ({ p' with ppu_image := some img }, img) ∧
    img.length = p.height ∧
    (∀ row ∈ img, row.length = p.width) ∧
    (∀ i, i < p.width * p.height →
      (img.getD (i / p.width) []).getD (i % p.width) (0, 0, 0) =
        (p.framebuffer.getD i 0, p.framebuffer.getD i 0, p.framebuffer.getD i 0)) := by
  unfold render_frame at h
  by_cases hc : p.width * p.height ≤ p.framebuffer.length
  · rw [if_pos hc] at h
    simp only [Option.some.injEq, Prod.mk.injEq] at h
    obtain ⟨hp', himg⟩ := h
    subst himg
    subst hp'
    refine ⟨rfl, ?_, ?_, ?_, ?_⟩
    · unfold render_frame
      rw [if_pos hc]
    · simp [renderImage]
    · intro row hrow
      simp only [renderImage, List.mem_map] at hrow
      obtain ⟨y, _, hrow⟩ := hrow
      rw [← hrow]
      simp
    · intro i hi
      have hw : 0 < p.width := by
        rcases Nat.eq_zero_or_pos p.width with h0 | h0
        · rw [h0] at hi; omega
        · exact h0
      have hy : i / p.width < p.height := Nat.div_lt_of_lt_mul (by omega)
      have hx : i % p.width < p.width := Nat.mod_lt i hw
      have hidx : i / p.width * p.width + i % p.width = i := by
        rw [Nat.mul_comm]
        exact Nat.div_add_mod i p.width
      simp [renderImage, List.getD_eq_getElem?_getD, List.getElem?_map,
        List.getElem?_range hy, List.getElem?_range hx, hidx]
  · rw [if_neg hc] at h
    cases h

/-- Witness for `c8_render_pure_grayscale` at `p2x2`. -/
theorem c8_render_pure_grayscale_witness :
    render_frame p2x2 = some ({ p2x2 with ppu_image := some img2x2 }, img2x2) ∧
    (({ p2x2 with ppu_image := some img2x2 } : PpuState).framebuffer = p2x2.framebuffer ∧
     render_frame { p2x2 with ppu_image := some img2x2 } =
      some ({ { p2x2 with ppu_image := some img2x2 } with ppu_image := some img2x2 }, img2x2) ∧
     img2x2.length = p2x2.height ∧
     (∀ row ∈ img2x2, row.length = p2x2.width) ∧
     (∀ i, i < p2x2.width * p2x2.height →
       (img2x2.getD (i / p2x2.width) []).getD (i % p2x2.width) (0, 0, 0) =
         (p2x2.framebuffer.getD i 0, p2x2.framebuffer.getD i 0, p2x2.framebuffer.getD i 0))) :=
  ⟨by decide, c8_render_pure_grayscale p2x2 _ img2x2 (by decide)⟩
